import Mathlib

/-!
Verification development for the plaso event core (`src/lib/event.py`, Python 2).

The definitions below are a shallow embedding of `EventContainer` and
`EventObject`: the container tree with its timestamp-range bookkeeping,
ordered iteration, parent-chain attribute resolution, and the protobuf
codec (`ToProto` / `FromProto`).  Python integers are modelled as `Int`,
Python dicts as association lists with overwrite-on-insert, and fallible
code returns `Except` or carries an explicit error component.
-/

namespace Plaso

/-! ## Attribute values

The in-memory attribute value algebra (spec section 3).  In Python 2 a byte
blob is a `str`, so byte values travel through the same constructor as text.
`float` stands for a (nonzero) Python floating point value: the code never
inspects a float beyond `isinstance` checks and truthiness, so the payload
is irrelevant; zero floats (which are falsy) are not modelled since no
claim exercises them. -/
inductive Value : Type where
  | str (s : String)
  | int (n : Int)
  | bool (b : Bool)
  | dict (entries : List (String × Value))
  | arr (elems : List Value)
  | float

/-- Python dict `__setitem__` on an association list: overwrite the first
binding of the key in place, otherwise append a new binding. -/
def setItemV : List (String × Value) → String → Value → List (String × Value)
  | [], k, v => [(k, v)]
  | (k', v') :: rest, k, v =>
      if k' = k then (k, v) :: rest else (k', v') :: setItemV rest k v

/-- Python dict lookup (`__contains__` / `__getitem__`) on an association
list: the first binding of the key, if any. -/
def lookupStore : List (String × Value) → String → Option Value
  | [], _ => none
  | (k, v) :: rest, name => if k = name then some v else lookupStore rest name

/-! ## Parent-chain attribute resolution

`EventContainer.GetValue` checks the node's own attribute store, then
delegates to the parent container.  The guard in the source is
`if self.parent_container:` — Python truthiness of an `EventContainer`
goes through its `__len__`, so the chain is also cut when the parent
container holds zero events in its subtree.  A chain element is the
parent's attribute store paired with its `__len__` value. -/
def getValueChain (own : List (String × Value))
    (parents : List (List (String × Value) × Nat)) (name : String) :
    Option Value :=
  match lookupStore own name with
  | some v => some v
  | none =>
    match parents with
    | [] => none
    | (pstore, plen) :: rest =>
        if plen = 0 then none else getValueChain pstore rest name

/-- `EventObject.__getattr__` for dynamic attributes: check the event's own
attribute store, then — behind the same `if self.parent_container:`
truthiness guard — the parent container's `GetValue` chain. -/
def eventGetattr (attrs : List (String × Value))
    (chain : List (List (String × Value) × Nat)) (name : String) :
    Option Value :=
  match lookupStore attrs name with
  | some v => some v
  | none =>
    match chain with
    | [] => none
    | (pstore, plen) :: rest =>
        if plen = 0 then none else getValueChain pstore rest name

/-! ## The container tree -/

/-- An event as seen by the container operations: `_Append`, `__iter__` and
`__len__` read only `item.timestamp` (microseconds since the Unix epoch,
an integer per spec section 3).  The full dynamic attribute store is
modelled separately for the codec and resolution claims. -/
structure EventObj where
  timestamp : Int
  deriving DecidableEq, Repr

/-- `EventContainer`: directly stored events, directly stored child
containers, and the cached inclusive timestamp bounds
(`first_timestamp` / `last_timestamp`, both initialised to `0`). -/
inductive Cont : Type where
  | mk (events : List EventObj) (containers : List Cont)
      (first_timestamp : Int) (last_timestamp : Int)

def Cont.events : Cont → List EventObj
  | .mk evs _ _ _ => evs

def Cont.containers : Cont → List Cont
  | .mk _ cs _ _ => cs

def Cont.first_timestamp : Cont → Int
  | .mk _ _ f _ => f

def Cont.last_timestamp : Cont → Int
  | .mk _ _ _ l => l

/-- A fresh `EventContainer()`: empty sequences, both bounds `0`. -/
def emptyCont : Cont := .mk [] [] 0 0

/-- The timestamp-range update of `EventContainer._Append`, statement by
statement.  `tlOpt` is the `timestamp_last` argument (`none` when the
caller passed no fourth argument, i.e. for an `EventObject`).  Python
falsiness of `None` and of the integer `0` drive the `if not ...` guards,
so a bound value of `0` is treated as "no range recorded". -/
def appendRange (first last tf : Int) (tlOpt : Option Int) : Int × Int :=
  let tl0 : Int :=
    match tlOpt with
    | none => tf
    | some t => if t = 0 then tf else t
  let last1 := if last = 0 then tl0 else last
  let first1 := if first = 0 then tf else first
  let last2 := if tl0 > last1 then tl0 else last1
  let first2 := if tf < first1 then tf else first1
  (first2, last2)

/-- `_Append` of an `EventObject`: store it in `self.events` and update the
range with `item.timestamp` as `timestamp_first` (no `timestamp_last`). -/
def Cont.appendEvent : Cont → EventObj → Cont
  | .mk evs cs f l, e =>
      let fl := appendRange f l e.timestamp none
      .mk (evs ++ [e]) cs fl.1 fl.2

/-- `_Append` of an `EventContainer`: store it in `self.containers` and
update the range with the child's `first_timestamp` / `last_timestamp`. -/
def Cont.appendCont : Cont → Cont → Cont
  | .mk evs cs f l, d =>
      let fl := appendRange f l d.first_timestamp (some d.last_timestamp)
      .mk evs (cs ++ [d]) fl.1 fl.2

/-! ## Subtree contents, `__len__` -/

mutual
/-- All `EventObject`s in the subtree rooted at a container, in storage
order: direct events first, then each child container's subtree. -/
def subtreeEvents : Cont → List EventObj
  | .mk evs cs _ _ => evs ++ subtreeEventsList cs

def subtreeEventsList : List Cont → List EventObj
  | [] => []
  | c :: cs => subtreeEvents c ++ subtreeEventsList cs
end

/-- The timestamps of every event in the subtree rooted at a container. -/
def subtreeTimestamps (c : Cont) : List Int :=
  (subtreeEvents c).map EventObj.timestamp

mutual
/-- `EventContainer.__len__`: direct event count plus the recursive count
of every child container. -/
def contLen : Cont → Nat
  | .mk evs cs _ _ => evs.length + contLenList cs

def contLenList : List Cont → Nat
  | [] => 0
  | c :: cs => contLen c + contLenList cs
end

/-! ## Ordered iteration (`EventContainer.__iter__`)

The source pushes every subtree event onto a `heapq` binary min-heap keyed
by `(event.timestamp, event)` and then pops them all.  The Python standard
library heap is not part of this repository; it is modelled by its
priority-queue contract: the heap is kept as a list sorted by timestamp,
a push is an ordered insertion, and draining the heap yields the list
itself.  Ties between equal timestamps fall back to Python 2's arbitrary
object comparison, which the spec leaves deliberately unspecified; the
model's ordered insertion realises one admissible tie-break. -/

/-- The heap ordering: non-decreasing `timestamp`. -/
def tsLe (a b : EventObj) : Prop := a.timestamp ≤ b.timestamp

instance : DecidableRel tsLe := fun a b => Int.decLe a.timestamp b.timestamp

instance : IsTotal EventObj tsLe := ⟨fun a b => Int.le_total a.timestamp b.timestamp⟩

instance : IsTrans EventObj tsLe := ⟨fun _ _ _ h h' => le_trans h h'⟩

/-- `heapq.heappush` of one event, by the priority-queue contract. -/
def heapPush (h : List EventObj) (e : EventObj) : List EventObj :=
  List.orderedInsert tsLe e h

/-- Push a list of events onto the heap, left to right (the `for` loops
in `__iter__`). -/
def heapPushAll (l : List EventObj) (h : List EventObj) : List EventObj :=
  l.foldl heapPush h

mutual
/-- `EventContainer.__iter__`: push all direct events, then every event
produced by each child container's own iteration, then drain the heap. -/
def iterCont : Cont → List EventObj
  | .mk evs cs _ _ => iterFold cs (heapPushAll evs [])

def iterFold : List Cont → List EventObj → List EventObj
  | [], h => h
  | c :: cs, h => iterFold cs (heapPushAll (iterCont c) h)
end

/-! ## Sequences of successful appends -/

/-- One successful `Append` call on a container: either an `EventObject`
or an `EventContainer` (whose subtree is fixed at the moment it is
appended, since the parent takes only a snapshot of its bounds). -/
inductive Op : Type where
  | ev (e : EventObj)
  | cont (d : Cont)

def applyOp (c : Cont) : Op → Cont
  | .ev e => c.appendEvent e
  | .cont d => c.appendCont d

def applyOps (c : Cont) (ops : List Op) : Cont :=
  ops.foldl applyOp c

/-- Appending a list of plain events (timestamps) to a fresh container. -/
def applyEvents (ts : List Int) : Cont :=
  applyOps emptyCont (ts.map fun t => Op.ev ⟨t⟩)

/-- The cached range covers every event timestamp in the subtree
(the invariant of claim C1). -/
def BoundsOK (c : Cont) : Prop :=
  ∀ t ∈ subtreeTimestamps c, c.first_timestamp ≤ t ∧ t ≤ c.last_timestamp

/-! ## The polymorphic `Append` with its failure path

`EventContainer.Append` dispatches on the dynamic type of `item`; for an
`EventObject` it evaluates `item.timestamp` (through `__getattr__` and the
parent chain) before calling `_Append`, and converts an `AttributeError`
into `errors.NotAnEventContainerOrObject`.  On that failure path `_Append`
never runs: nothing is stored, the range is untouched and
`item.parent_container` is never assigned. -/

inductive AppendErr : Type where
  | notAnEventContainerOrObject
  deriving DecidableEq, Repr

/-- Extract the integer value a resolved timestamp contributes to the
range arithmetic.  Python 2 booleans are integers (`True == 1`).  An event
whose resolved `timestamp` is any other kind of value lies outside the
spec's data model (section 3 fixes `timestamp` as a microsecond integer);
the model routes it to the failure path and no claim exercises it. -/
def Value.asInt : Value → Option Int
  | .int n => some n
  | .bool b => some (if b then 1 else 0)
  | _ => none

/-- The argument of one `Append` call: an `EventObject` carrying its own
attribute store and parent chain, an `EventContainer`, or any other
object. -/
inductive Item : Type where
  | event (attrs : List (String × Value))
      (chain : List (List (String × Value) × Nat))
  | container (d : Cont)
  | other

/-- `EventContainer.Append`.  The result is the container after the call,
whether `item.parent_container = self` was executed, and the error if one
was raised. -/
def AppendRun (c : Cont) (it : Item) : Cont × Bool × Option AppendErr :=
  match it with
  | .event attrs chain =>
    match (eventGetattr attrs chain "timestamp").bind Value.asInt with
    | some t => (c.appendEvent ⟨t⟩, true, none)
    | none => (c, false, some .notAnEventContainerOrObject)
  | .container d => (c.appendCont d, true, none)
  | .other => (c, false, some .notAnEventContainerOrObject)

/-! ## A parent and a child container as two separate stores (claim C10)

`P.containers` holds a reference to the child `C`; later `Append` calls on
`C` execute `C._Append`, whose assignments touch only `C`'s fields (and
the appended item).  The pair below is the two objects' state; the parent
records the child by reference (index `0`). -/

structure PState where
  events : List EventObj
  containerIds : List Nat
  first_timestamp : Int
  last_timestamp : Int
  deriving DecidableEq, Repr

structure Sys where
  P : PState
  C : Cont

/-- `P.Append(C)`: the child reference enters `P.containers` and `P`'s
range is updated from a snapshot of `C`'s current bounds. -/
def Sys.appendChildC (s : Sys) : Sys :=
  let fl := appendRange s.P.first_timestamp s.P.last_timestamp
      s.C.first_timestamp (some s.C.last_timestamp)
  { s with P := ⟨s.P.events, s.P.containerIds ++ [0], fl.1, fl.2⟩ }

/-- `C.Append(event)`: `C._Append` runs with `self = C`. -/
def Sys.appendEventC (s : Sys) (e : EventObj) : Sys :=
  { s with C := s.C.appendEvent e }

/-! ## The wire form (codec)

The protobuf schema (`plaso_storage_pb2`) is not under `src/`.
Modelled from the spec: section 6 fixes the outer message's fields —
`timestamp` (int64), `timestamp_desc` (string), `source_short` (enum
code), `source_long` (string), `pathspec` (opaque bytes) and `attributes`
(repeated name + TaggedValue) — and the TaggedValue variants string /
integer / boolean / opaque bytes / nested mapping / nested sequence.
An `Attribute` or `Value` sub-message is a key (possibly unset: the
`Value` protos inside an array carry no key) plus at most one value
field; `val = none` is a message with no value field set, the
"unrecognized TaggedValue discriminant" of the spec. -/

mutual
inductive PVal : Type where
  | pstring (s : String)
  | pinteger (n : Int)
  | pboolean (b : Bool)
  | pdict (attrs : List PAttr)
  | parray (vals : List PAttr)
  | pdata (d : String)

inductive PAttr : Type where
  | mk (hasKey : Bool) (key : String) (val : Option PVal)
end

structure PEvent where
  timestamp : Option Int
  timestamp_desc : Option String
  source_short : Option Nat
  source_long : Option String
  pathspec : Option String
  attributes : List PAttr

def emptyPEvent : PEvent := ⟨none, none, none, none, none, []⟩

/-- The argument handed to `FromProto`: either an `EventObject` protobuf
or a message of some other type. -/
inductive PMsg : Type where
  | eventMsg (p : PEvent)
  | otherMsg

/-- The failures the codec can surface.  `unsupportedMessageType` is the
`RuntimeError("Unsupported proto")` of `FromProto` /
`_AttributeFromProto`; `unsupportedAttributeType` is the
`RuntimeError("Unsupported proto attribute type.")` of
`_AttributeFromProto`; `keyError` is an uncaught Python `KeyError` from a
plain dict lookup; `wireTypeError` is the `TypeError` the protobuf layer
raises when a value of the wrong kind is assigned to a wire field
(modelled from the spec's field typing in section 6). -/
inductive CodecErr : Type where
  | unsupportedMessageType
  | unsupportedAttributeType
  | keyError
  | wireTypeError
  deriving DecidableEq, Repr

/-! ### The `source_short` enum table

Modelled from the spec: the `SourceShort` enum of the wire schema is not
under `src/`; section 4.4 pins only the reserved code 6, conventionally
named "LOG", and no claim exercises any other entry.  The
`setdefault(6)` / `setdefault('LOG')` calls in the source insert the
given key with value `None` when it is absent — with "LOG" already bound
to 6 they are no-ops — and install no lookup default, so the maps stay
plain dicts. -/

def sourceShortToProtoMap : String → Option Nat :=
  fun s => if s = "LOG" then some 6 else none

def sourceShortFromProtoMap : Nat → Option String :=
  fun n => if n = 6 then some "LOG" else none

/-! ### Encoding (`EventObject.ToProto` / `_AttributeToProto`) -/

/-- `utils.GetUnicodeString` (external collaborator): normalizes a Python
2 `str`/`unicode` to canonical text.  Modelled from the spec: identity on
the model's strings. -/
def getUnicodeString (s : String) : String := s

/-- Python 2 truthiness of an attribute value.  A `float` here stands for
a nonzero float (see `Value`). -/
def py2Truthy : Value → Bool
  | .str s => !s.isEmpty
  | .int n => n != 0
  | .bool b => b
  | .dict d => !d.isEmpty
  | .arr l => !l.isEmpty
  | .float => true

/-- `isinstance(value, (bool, int, long))`: Python 2 booleans are
integers. -/
def isinstBoolIntLong : Value → Bool
  | .int _ => true
  | .bool _ => true
  | _ => false

/-- The dynamic-attribute emission filter of `ToProto`:
`isinstance(attribute_value, (bool, int, long)) or attribute_value`. -/
def emitsDynamic (v : Value) : Bool :=
  isinstBoolIntLong v || py2Truthy v

mutual
/-- `EventObject._AttributeToProto`.  `if name: proto.key = name` leaves
the key unset for an empty name.  The `isinstance` dispatch is checked in
source order: `str`/`unicode` first (which in Python 2 also captures byte
blobs), then `int`/`long` — a subclass test that also captures `bool`, so
the boolean branch below it is unreachable and booleans are emitted as
integers.  A value of any other kind (notably a float) falls into the
catch-all `proto.data = value`, and the opaque-bytes wire field rejects
it with a `TypeError` from the protobuf layer. -/
def attributeToProto (name : String) (v : Value) : Except CodecErr PAttr :=
  match v with
  | .str s => .ok (.mk (!name.isEmpty) name (some (.pstring (getUnicodeString s))))
  | .int n => .ok (.mk (!name.isEmpty) name (some (.pinteger n)))
  | .bool b => .ok (.mk (!name.isEmpty) name (some (.pinteger (if b then 1 else 0))))
  | .dict entries =>
    match dictEntriesToProto entries with
    | .error e => .error e
    | .ok attrs => .ok (.mk (!name.isEmpty) name (some (.pdict attrs)))
  | .arr elems =>
    match arrElemsToProto elems with
    | .error e => .error e
    | .ok vals => .ok (.mk (!name.isEmpty) name (some (.parray vals)))
  | .float => .error .wireTypeError

def dictEntriesToProto : List (String × Value) → Except CodecErr (List PAttr)
  | [] => .ok []
  | (k, v) :: rest =>
    match attributeToProto k v with
    | .error e => .error e
    | .ok a =>
      match dictEntriesToProto rest with
      | .error e => .error e
      | .ok as' => .ok (a :: as')

def arrElemsToProto : List Value → Except CodecErr (List PAttr)
  | [] => .ok []
  | v :: rest =>
    match attributeToProto "" v with
    | .error e => .error e
    | .ok a =>
      match arrElemsToProto rest with
      | .error e => .error e
      | .ok as' => .ok (a :: as')
end

/-- The fixed scalar fields of the wire message reachable through the
`hasattr(proto, attribute_name)` branch of `ToProto` (modelled from the
spec, section 6), i.e. everything of section 6's schema besides the
special-cased `source_short` and `pathspec` and the dynamic bag. -/
def fixedFields : List String := ["timestamp", "timestamp_desc", "source_long"]

/-- Direct assignment into a fixed schema field
(`setattr(proto, attribute_name, attribute_value)` after the
`GetUnicodeString` normalization of strings).  The protobuf layer accepts
an integer or boolean for the int64 `timestamp` and a string for the text
fields, and raises `TypeError` otherwise (spec-modelled wire typing). -/
def setFixed (p : PEvent) (name : String) (v : Value) : Except CodecErr PEvent :=
  if name = "timestamp" then
    match v with
    | .int n => .ok { p with timestamp := some n }
    | .bool b => .ok { p with timestamp := some (if b then 1 else 0) }
    | _ => .error .wireTypeError
  else if name = "timestamp_desc" then
    match v with
    | .str s => .ok { p with timestamp_desc := some (getUnicodeString s) }
    | _ => .error .wireTypeError
  else if name = "source_long" then
    match v with
    | .str s => .ok { p with source_long := some (getUnicodeString s) }
    | _ => .error .wireTypeError
  else .error .wireTypeError

/-- One iteration of the `ToProto` loop body for attribute `name` holding
`v`.  `source_short` is translated through the enum dict — a plain
`[]` lookup whose miss is an uncaught `KeyError`.  `pathspec` is a
pre-serialized blob: `proto.pathspec.MergeFromString(self.pathspec)`
followed on decode by `SerializeToString()` round-trips the bytes, which
the spec (section 4.4 step 2) describes as a verbatim copy — modelled as
such, and a non-bytes value is rejected by the wire layer.  Every other
fixed-schema name is assigned directly; the remaining names are dynamic
and go through the emission filter. -/
def encodeStep (p : PEvent) (name : String) (v : Value) : Except CodecErr PEvent :=
  if name = "source_short" then
    match v with
    | .str s =>
      match sourceShortToProtoMap s with
      | some code => .ok { p with source_short := some code }
      | none => .error .keyError
    | _ => .error .keyError
  else if name = "pathspec" then
    match v with
    | .str d => .ok { p with pathspec := some d }
    | _ => .error .wireTypeError
  else if name ∈ fixedFields then setFixed p name v
  else if emitsDynamic v then
    match attributeToProto name v with
    | .error e => .error e
    | .ok a => .ok { p with attributes := p.attributes ++ [a] }
  else .ok p

def toProtoLoop : PEvent → List (String × Value) → Except CodecErr PEvent
  | p, [] => .ok p
  | p, (n, v) :: rest =>
    match encodeStep p n v with
    | .error e => .error e
    | .ok p' => toProtoLoop p' rest

/-- `EventObject.ToProto` for an event with no parent container: the loop
runs over `GetAttributes()`, which is then exactly the event's own store.
The iteration order of that Python set is arbitrary; the model iterates
the store in list order (the fixed fields commute, and no claim depends
on the order of the dynamic pairs). -/
def toProto (store : List (String × Value)) : Except CodecErr PEvent :=
  toProtoLoop emptyPEvent store

/-! ### Decoding (`EventObject.FromProto` / `_AttributeFromProto`) -/

mutual
/-- `EventObject._AttributeFromProto`: read the key if the message has
one (`Value` protos have none), then dispatch on which value field is
set, in source order.  `data` holds Python 2 bytes, i.e. a `str`.  A
message with no recognized value field set raises
`RuntimeError("Unsupported proto attribute type.")`. -/
def attributeFromProto : PAttr → Except CodecErr (String × Value)
  | .mk hasKey key val =>
    let k := if hasKey then key else ""
    match val with
    | some (.pstring s) => .ok (k, .str s)
    | some (.pinteger n) => .ok (k, .int n)
    | some (.pboolean b) => .ok (k, .bool b)
    | some (.pdict attrs) =>
      match attrsFromProtoPairs attrs with
      | .error e => .error e
      | .ok pairs =>
        .ok (k, .dict (pairs.foldl (fun d kv => setItemV d kv.1 kv.2) []))
    | some (.parray vals) =>
      match attrsFromProtoPairs vals with
      | .error e => .error e
      | .ok pairs => .ok (k, .arr (pairs.map Prod.snd))
    | some (.pdata d) => .ok (k, .str d)
    | none => .error .unsupportedAttributeType

/-- Decode a repeated `Attribute`/`Value` field into (key, value) pairs,
stopping at the first failure (the `dict(... for ...)` generator raises
before `update` is ever called). -/
def attrsFromProtoPairs : List PAttr → Except CodecErr (List (String × Value))
  | [] => .ok []
  | a :: rest =>
    match attributeFromProto a with
    | .error e => .error e
    | .ok kv =>
      match attrsFromProtoPairs rest with
      | .error e => .error e
      | .ok pairs => .ok (kv :: pairs)
end

/-- `EventObject.FromProto`, acting on the event's attribute store.  A
message of the wrong type is rejected up front, before any mutation.
Otherwise the `ListFields()` loop stores each set fixed field one by one
— `source_short` through the reverse enum dict (an uncaught `KeyError`
when the code is unknown), `pathspec` re-serialized to the original blob,
the `attributes` field skipped — and only then are the dynamic attributes
decoded and merged in one `update`.  The result is the store after the
call together with the error raised, if any: a failure while decoding the
dynamic attributes leaves the already-stored fixed fields behind. -/
def fromProtoMsg (store : List (String × Value)) (m : PMsg) :
    List (String × Value) × Option CodecErr :=
  match m with
  | .otherMsg => (store, some .unsupportedMessageType)
  | .eventMsg p =>
    let s1 := match p.timestamp with
      | none => store
      | some n => setItemV store "timestamp" (.int n)
    let s2 := match p.timestamp_desc with
      | none => s1
      | some s => setItemV s1 "timestamp_desc" (.str s)
    match (match p.source_short with
           | none => Except.ok s2
           | some code =>
             match sourceShortFromProtoMap code with
             | some nm => Except.ok (setItemV s2 "source_short" (.str nm))
             | none => Except.error CodecErr.keyError) with
    | .error e => (s2, some e)
    | .ok s3 =>
      let s4 := match p.source_long with
        | none => s3
        | some s => setItemV s3 "source_long" (.str s)
      let s5 := match p.pathspec with
        | none => s4
        | some d => setItemV s4 "pathspec" (.str d)
      match attrsFromProtoPairs p.attributes with
      | .error e => (s5, some e)
      | .ok pairs => (pairs.foldl (fun st kv => setItemV st kv.1 kv.2) s5, none)

/-! # Range arithmetic lemmas -/

/-- A container whose recorded range is positive and covers its subtree. -/
def PosGood (c : Cont) : Prop :=
  0 < c.first_timestamp ∧ 0 < c.last_timestamp ∧ BoundsOK c

/-- An append argument inside the positive-timestamp envelope: an event
with a positive timestamp, or a container whose recorded bounds are
positive and already cover its own subtree. -/
def ValidOp : Op → Prop
  | .ev e => 0 < e.timestamp
  | .cont d => PosGood d

/-- The invariant maintained by `_Append` under `ValidOp` arguments:
either still pristine (`0` bounds, empty subtree) or positive and
covering. -/
def Inv0 (c : Cont) : Prop :=
  (c.first_timestamp = 0 ∧ c.last_timestamp = 0 ∧ subtreeTimestamps c = []) ∨ PosGood c

lemma appendRange_ev_seed (t : Int) : appendRange 0 0 t none = (t, t) := by
  simp [appendRange]

lemma appendRange_ev_pos (f l t : Int) (hf : f ≠ 0) (hl : l ≠ 0) :
    appendRange f l t none = (min f t, max l t) := by
  simp only [appendRange, hf, hl, if_false]
  rw [Prod.mk.injEq]
  constructor <;> (split_ifs <;> omega)

lemma appendRange_cont_seed (df dl : Int) (h : dl ≠ 0) :
    appendRange 0 0 df (some dl) = (df, dl) := by
  simp only [appendRange, h, if_false, if_true, eq_self_iff_true]
  rw [Prod.mk.injEq]
  constructor <;> (split_ifs <;> omega)

lemma appendRange_cont_pos (f l df dl : Int) (hf : f ≠ 0) (hl : l ≠ 0)
    (hdl : dl ≠ 0) : appendRange f l df (some dl) = (min f df, max l dl) := by
  simp only [appendRange, hf, hl, hdl, if_false]
  rw [Prod.mk.injEq]
  constructor <;> (split_ifs <;> omega)

lemma mem_subtree_appendEvent (c : Cont) (e : EventObj) (t : Int) :
    t ∈ subtreeTimestamps (c.appendEvent e) ↔
      t ∈ subtreeTimestamps c ∨ t = e.timestamp := by
  cases c with
  | mk evs cs f l =>
    simp only [Cont.appendEvent, subtreeTimestamps, subtreeEvents,
      List.map_append, List.mem_append, List.map_cons, List.map_nil,
      List.mem_cons, List.not_mem_nil, or_false]
    tauto

lemma subtreeEventsList_append (cs : List Cont) (d : Cont) :
    subtreeEventsList (cs ++ [d]) = subtreeEventsList cs ++ subtreeEvents d := by
  induction cs with
  | nil => simp [subtreeEventsList, subtreeEvents]
  | cons c' cs' ih => simp [subtreeEventsList, ih]

lemma mem_subtree_appendCont (c d : Cont) (t : Int) :
    t ∈ subtreeTimestamps (c.appendCont d) ↔
      t ∈ subtreeTimestamps c ∨ t ∈ subtreeTimestamps d := by
  cases c with
  | mk evs cs f l =>
    simp only [Cont.appendCont, subtreeTimestamps, subtreeEvents,
      subtreeEventsList_append, List.map_append, List.mem_append]
    tauto

lemma appendEvent_first (c : Cont) (e : EventObj) :
    (c.appendEvent e).first_timestamp =
      (appendRange c.first_timestamp c.last_timestamp e.timestamp none).1 := by
  cases c; rfl

lemma appendEvent_last (c : Cont) (e : EventObj) :
    (c.appendEvent e).last_timestamp =
      (appendRange c.first_timestamp c.last_timestamp e.timestamp none).2 := by
  cases c; rfl

lemma appendCont_first (c d : Cont) :
    (c.appendCont d).first_timestamp =
      (appendRange c.first_timestamp c.last_timestamp d.first_timestamp
        (some d.last_timestamp)).1 := by
  cases c; cases d; rfl

lemma appendCont_last (c d : Cont) :
    (c.appendCont d).last_timestamp =
      (appendRange c.first_timestamp c.last_timestamp d.first_timestamp
        (some d.last_timestamp)).2 := by
  cases c; cases d; rfl

lemma step_inv (c : Cont) (op : Op) (hc : Inv0 c) (hop : ValidOp op) :
    Inv0 (applyOp c op) := by
  cases op with
  | ev e =>
    have ht : 0 < e.timestamp := hop
    right
    rcases hc with ⟨hf, hl, hsub⟩ | ⟨hf, hl, hb⟩
    · -- pristine container: the first event seeds both bounds
      have heq : appendRange c.first_timestamp c.last_timestamp e.timestamp none =
          (e.timestamp, e.timestamp) := by
        rw [hf, hl, appendRange_ev_seed]
      refine ⟨?_, ?_, ?_⟩
      · rw [applyOp, appendEvent_first, heq]; exact ht
      · rw [applyOp, appendEvent_last, heq]; exact ht
      · intro t htmem
        rw [applyOp] at htmem ⊢
        rw [mem_subtree_appendEvent] at htmem
        rw [appendEvent_first, appendEvent_last, heq]
        rcases htmem with h1 | rfl
        · rw [hsub] at h1; cases h1
        · omega
    · -- recorded range: pure min/max update
      have heq := appendRange_ev_pos c.first_timestamp c.last_timestamp
        e.timestamp hf.ne' hl.ne'
      refine ⟨?_, ?_, ?_⟩
      · rw [applyOp, appendEvent_first, heq]; simp; omega
      · rw [applyOp, appendEvent_last, heq]; simp; omega
      · intro t htmem
        rw [applyOp] at htmem ⊢
        rw [mem_subtree_appendEvent] at htmem
        rw [appendEvent_first, appendEvent_last, heq]
        rcases htmem with h1 | rfl
        · have := hb t h1
          simp only []
          omega
        · simp only []
          omega
  | cont d =>
    obtain ⟨hdf, hdl, hdb⟩ := hop
    right
    rcases hc with ⟨hf, hl, hsub⟩ | ⟨hf, hl, hb⟩
    · have heq : appendRange c.first_timestamp c.last_timestamp d.first_timestamp
          (some d.last_timestamp) = (d.first_timestamp, d.last_timestamp) := by
        rw [hf, hl, appendRange_cont_seed _ _ hdl.ne']
      refine ⟨?_, ?_, ?_⟩
      · rw [applyOp, appendCont_first, heq]; exact hdf
      · rw [applyOp, appendCont_last, heq]; exact hdl
      · intro t htmem
        rw [applyOp] at htmem ⊢
        rw [mem_subtree_appendCont] at htmem
        rw [appendCont_first, appendCont_last, heq]
        rcases htmem with h1 | h1
        · rw [hsub] at h1; cases h1
        · have := hdb t h1
          omega
    · have heq := appendRange_cont_pos c.first_timestamp c.last_timestamp
        d.first_timestamp d.last_timestamp hf.ne' hl.ne' hdl.ne'
      refine ⟨?_, ?_, ?_⟩
      · rw [applyOp, appendCont_first, heq]; simp; omega
      · rw [applyOp, appendCont_last, heq]; simp; omega
      · intro t htmem
        rw [applyOp] at htmem ⊢
        rw [mem_subtree_appendCont] at htmem
        rw [appendCont_first, appendCont_last, heq]
        rcases htmem with h1 | h1
        · have := hb t h1
          simp only []
          omega
        · have := hdb t h1
          simp only []
          omega

lemma applyOps_inv (ops : List Op) :
    ∀ c : Cont, Inv0 c → (∀ op ∈ ops, ValidOp op) → Inv0 (applyOps c ops) := by
  induction ops with
  | nil => intro c hc _; exact hc
  | cons op rest ih =>
    intro c hc h
    have h1 : ValidOp op := h op (List.mem_cons_self op rest)
    have h2 : ∀ o ∈ rest, ValidOp o := fun o ho => h o (List.mem_cons_of_mem op ho)
    simpa [applyOps] using ih (applyOp c op) (step_inv c op hc h1) h2

/-! # Claim C1 -/

/-- Claim C1, counterexample.  Two successful `Append` calls — an event
with timestamp `0`, then an event with timestamp `-5` — leave the
container holding both events with `first_timestamp = last_timestamp =
-5`: the stored event at timestamp `0` escapes the recorded range,
because `_Append` treats a bound of `0` (Python-falsy) as "no range
recorded" and re-seeds both bounds from the second event. -/
theorem c1_counterexample :
    ¬ BoundsOK (applyOps emptyCont [Op.ev ⟨0⟩, Op.ev ⟨(-5 : Int)⟩]) := by
  intro h
  have h0 : (0 : Int) ∈ subtreeTimestamps
      (applyOps emptyCont [Op.ev ⟨0⟩, Op.ev ⟨(-5 : Int)⟩]) := by decide
  have := h 0 h0
  revert this
  decide

/-- Claim C1 (amended): after any sequence of successful `Append` calls
on a fresh container in which every appended event has a positive
timestamp and every appended container has positive recorded bounds
covering its own subtree, the container's `first_timestamp` and
`last_timestamp` bound the timestamp of every event in its subtree.
(The amendment excludes zero and negative timestamps, which the
counterexample shows violate the claim: the code's `if not
self.last_timestamp` guards confuse a bound of `0` with an unrecorded
range.)  Since any prefix of such a sequence satisfies the same
hypothesis, the invariant holds after each of the appends. -/
theorem c1_amended (ops : List Op) (h : ∀ op ∈ ops, ValidOp op) :
    BoundsOK (applyOps emptyCont ops) := by
  have hinv : Inv0 (applyOps emptyCont ops) := by
    apply applyOps_inv ops emptyCont _ h
    left
    refine ⟨rfl, rfl, rfl⟩
  rcases hinv with ⟨_, _, hsub⟩ | ⟨_, _, hb⟩
  · intro t ht
    rw [hsub] at ht
    cases ht
  · exact hb

/-- Witness for `c1_amended` at the concrete operation sequence
`[append event 3, append event 5]`. -/
theorem c1_amended_witness :
    (∀ op ∈ [Op.ev ⟨3⟩, Op.ev ⟨5⟩], ValidOp op) ∧
      BoundsOK (applyOps emptyCont [Op.ev ⟨3⟩, Op.ev ⟨5⟩]) := by
  have h : ∀ op ∈ [Op.ev (⟨3⟩ : EventObj), Op.ev ⟨5⟩], ValidOp op := by
    intro op hop
    rcases List.mem_cons.mp hop with rfl | hop'
    · exact (by norm_num : (0 : Int) < 3)
    · rcases List.mem_singleton.mp hop' with rfl
      exact (by norm_num : (0 : Int) < 5)
  exact ⟨h, c1_amended _ h⟩

/-! # Claim C2 -/

lemma emptyCont_appendEvent_first (t : Int) :
    (emptyCont.appendEvent ⟨t⟩).first_timestamp = t := by
  rw [appendEvent_first]
  show (appendRange 0 0 t none).1 = t
  rw [appendRange_ev_seed]

lemma emptyCont_appendEvent_last (t : Int) :
    (emptyCont.appendEvent ⟨t⟩).last_timestamp = t := by
  rw [appendEvent_last]
  show (appendRange 0 0 t none).2 = t
  rw [appendRange_ev_seed]

lemma bounds_fold_evs (xs : List Int) :
    ∀ c : Cont, 0 < c.first_timestamp → 0 < c.last_timestamp →
      (∀ t ∈ xs, 0 < t) →
      (applyOps c (xs.map fun t => Op.ev ⟨t⟩)).first_timestamp =
          xs.foldl min c.first_timestamp ∧
        (applyOps c (xs.map fun t => Op.ev ⟨t⟩)).last_timestamp =
          xs.foldl max c.last_timestamp := by
  induction xs with
  | nil => intro c _ _ _; exact ⟨rfl, rfl⟩
  | cons y ys ih =>
    intro c hf hl hpos
    have hy : 0 < y := hpos y (List.mem_cons_self y ys)
    have heq := appendRange_ev_pos c.first_timestamp c.last_timestamp y hf.ne' hl.ne'
    have hstep_f : (c.appendEvent ⟨y⟩).first_timestamp = min c.first_timestamp y := by
      rw [appendEvent_first]; show (appendRange _ _ y none).1 = _; rw [heq]
    have hstep_l : (c.appendEvent ⟨y⟩).last_timestamp = max c.last_timestamp y := by
      rw [appendEvent_last]; show (appendRange _ _ y none).2 = _; rw [heq]
    have hf' : 0 < (c.appendEvent ⟨y⟩).first_timestamp := by
      rw [hstep_f]; exact lt_min hf hy
    have hl' : 0 < (c.appendEvent ⟨y⟩).last_timestamp := by
      rw [hstep_l]; exact lt_max_of_lt_left hl
    have hpos' : ∀ t ∈ ys, 0 < t := fun t ht => hpos t (List.mem_cons_of_mem y ht)
    have hrec := ih (c.appendEvent ⟨y⟩) hf' hl' hpos'
    have happly : applyOps c ((y :: ys).map fun t => Op.ev ⟨t⟩) =
        applyOps (c.appendEvent ⟨y⟩) (ys.map fun t => Op.ev ⟨t⟩) := by
      simp [applyOps, applyOp]
    rw [happly, hrec.1, hrec.2, hstep_f, hstep_l]
    simp [List.foldl_cons]

lemma foldl_min_mem (xs : List Int) : ∀ x : Int, xs.foldl min x ∈ x :: xs := by
  induction xs with
  | nil => simp
  | cons y ys ih =>
    intro x
    have h := ih (min x y)
    rw [List.foldl_cons]
    rcases List.mem_cons.mp h with h1 | h1
    · rcases min_choice x y with hc | hc <;> rw [h1, hc] <;> simp
    · exact List.mem_cons_of_mem x (List.mem_cons_of_mem y h1)

lemma foldl_min_le (xs : List Int) :
    ∀ x : Int, ∀ t ∈ x :: xs, xs.foldl min x ≤ t := by
  induction xs with
  | nil => intro x t ht; rw [List.mem_singleton] at ht; subst ht; simp
  | cons y ys ih =>
    intro x t ht
    rw [List.foldl_cons]
    have h := ih (min x y)
    rcases List.mem_cons.mp ht with rfl | ht'
    · have := h (min t y) (List.mem_cons_self _ _)
      omega
    · rcases List.mem_cons.mp ht' with rfl | ht''
      · have := h (min x t) (List.mem_cons_self _ _)
        omega
      · exact h t (List.mem_cons_of_mem _ ht'')

lemma foldl_max_mem (xs : List Int) : ∀ x : Int, xs.foldl max x ∈ x :: xs := by
  induction xs with
  | nil => simp
  | cons y ys ih =>
    intro x
    have h := ih (max x y)
    rw [List.foldl_cons]
    rcases List.mem_cons.mp h with h1 | h1
    · rcases max_choice x y with hc | hc <;> rw [h1, hc] <;> simp
    · exact List.mem_cons_of_mem x (List.mem_cons_of_mem y h1)

lemma foldl_max_ge (xs : List Int) :
    ∀ x : Int, ∀ t ∈ x :: xs, t ≤ xs.foldl max x := by
  induction xs with
  | nil => intro x t ht; rw [List.mem_singleton] at ht; subst ht; simp
  | cons y ys ih =>
    intro x t ht
    rw [List.foldl_cons]
    have h := ih (max x y)
    rcases List.mem_cons.mp ht with rfl | ht'
    · have := h (max t y) (List.mem_cons_self _ _)
      omega
    · rcases List.mem_cons.mp ht' with rfl | ht''
      · have := h (max x t) (List.mem_cons_self _ _)
        omega
      · exact h t (List.mem_cons_of_mem _ ht'')

/-- Claim C2, counterexample to order-independence.  The multiset
`{0, 5}` appended in the two possible orders gives `first_timestamp = 5`
versus `first_timestamp = 0`: the event at timestamp `0` never seeds the
range (it is Python-falsy), so whether it is seen before or after the
seeding event changes the final bounds. -/
theorem c2_counterexample :
    ([0, 5] : List Int).Perm [5, 0] ∧
      (applyEvents [0, 5]).first_timestamp ≠
        (applyEvents [5, 0]).first_timestamp := by
  constructor
  · decide
  · decide

/-- Claim C2 (amended): restricted to positive timestamps — which the
counterexample shows is necessary — appending any two permutations of the
same multiset of timestamps to a fresh container yields the same final
`first_timestamp` and `last_timestamp`; and on a container whose recorded
range is positive, one more `_Append` of an event never increases
`first_timestamp` and never decreases `last_timestamp`. -/
theorem c2_amended :
    (∀ l₁ l₂ : List Int, (∀ t ∈ l₁, 0 < t) → l₁.Perm l₂ →
        (applyEvents l₁).first_timestamp = (applyEvents l₂).first_timestamp ∧
          (applyEvents l₁).last_timestamp = (applyEvents l₂).last_timestamp) ∧
      ∀ (c : Cont) (e : EventObj), 0 < c.first_timestamp →
        0 < c.last_timestamp →
        (c.appendEvent e).first_timestamp ≤ c.first_timestamp ∧
          c.last_timestamp ≤ (c.appendEvent e).last_timestamp := by
  constructor
  · intro l₁ l₂ hpos hperm
    cases l₁ with
    | nil =>
      have : l₂ = [] := hperm.symm.eq_nil
      rw [this]
      exact ⟨rfl, rfl⟩
    | cons x xs =>
      cases l₂ with
      | nil => exact absurd hperm.eq_nil (by simp)
      | cons y ys =>
        have hpos₂ : ∀ t ∈ y :: ys, 0 < t := fun t ht => hpos t (hperm.mem_iff.mpr ht)
        have hx : 0 < x := hpos x (List.mem_cons_self x xs)
        have hy : 0 < y := hpos₂ y (List.mem_cons_self y ys)
        have h₁ := bounds_fold_evs xs (emptyCont.appendEvent ⟨x⟩)
          (by rw [emptyCont_appendEvent_first]; exact hx)
          (by rw [emptyCont_appendEvent_last]; exact hx)
          (fun t ht => hpos t (List.mem_cons_of_mem x ht))
        have h₂ := bounds_fold_evs ys (emptyCont.appendEvent ⟨y⟩)
          (by rw [emptyCont_appendEvent_first]; exact hy)
          (by rw [emptyCont_appendEvent_last]; exact hy)
          (fun t ht => hpos₂ t (List.mem_cons_of_mem y ht))
        have e₁ : applyEvents (x :: xs) =
            applyOps (emptyCont.appendEvent ⟨x⟩) (xs.map fun t => Op.ev ⟨t⟩) := by
          simp [applyEvents, applyOps, applyOp]
        have e₂ : applyEvents (y :: ys) =
            applyOps (emptyCont.appendEvent ⟨y⟩) (ys.map fun t => Op.ev ⟨t⟩) := by
          simp [applyEvents, applyOps, applyOp]
        rw [e₁, e₂, h₁.1, h₁.2, h₂.1, h₂.2,
          emptyCont_appendEvent_first, emptyCont_appendEvent_last,
          emptyCont_appendEvent_first, emptyCont_appendEvent_last]
        constructor
        · -- both sides are the minimum of the same multiset
          apply le_antisymm
          · exact foldl_min_le xs x _ (hperm.mem_iff.mpr (foldl_min_mem ys y))
          · exact foldl_min_le ys y _ (hperm.mem_iff.mp (foldl_min_mem xs x))
        · apply le_antisymm
          · exact foldl_max_ge ys y _ (hperm.mem_iff.mp (foldl_max_mem xs x))
          · exact foldl_max_ge xs x _ (hperm.mem_iff.mpr (foldl_max_mem ys y))
  · intro c e hf hl
    have heq := appendRange_ev_pos c.first_timestamp c.last_timestamp
      e.timestamp hf.ne' hl.ne'
    rw [appendEvent_first, appendEvent_last, heq]
    constructor
    · exact min_le_left _ _
    · exact le_max_left _ _

/-- Witness for `c2_amended`: the permutation `[2, 7] ~ [7, 2]` and one
further append on the resulting container. -/
theorem c2_amended_witness :
    ((applyEvents [2, 7]).first_timestamp =
        (applyEvents [7, 2]).first_timestamp ∧
      (applyEvents [2, 7]).last_timestamp =
        (applyEvents [7, 2]).last_timestamp) ∧
      ((applyEvents [2, 7]).appendEvent ⟨4⟩).first_timestamp ≤
          (applyEvents [2, 7]).first_timestamp ∧
        (applyEvents [2, 7]).last_timestamp ≤
          ((applyEvents [2, 7]).appendEvent ⟨4⟩).last_timestamp := by
  refine ⟨c2_amended.1 [2, 7] [7, 2] (by decide) (by decide), ?_⟩
  exact c2_amended.2 (applyEvents [2, 7]) ⟨4⟩ (by decide) (by decide)

/-! # Claim C3 -/

lemma heapPush_sorted (h : List EventObj) (e : EventObj)
    (hs : List.Sorted tsLe h) : List.Sorted tsLe (heapPush h e) :=
  List.Sorted.orderedInsert e h hs

lemma heapPushAll_sorted (l : List EventObj) :
    ∀ h : List EventObj, List.Sorted tsLe h →
      List.Sorted tsLe (heapPushAll l h) := by
  induction l with
  | nil => intro h hs; exact hs
  | cons e l' ih =>
    intro h hs
    exact ih (heapPush h e) (heapPush_sorted h e hs)

lemma heapPushAll_perm (l : List EventObj) :
    ∀ h : List EventObj, (heapPushAll l h).Perm (l ++ h) := by
  induction l with
  | nil => intro h; simp [heapPushAll]
  | cons e l' ih =>
    intro h
    have h2 : (heapPushAll l' (heapPush h e)).Perm (l' ++ heapPush h e) :=
      ih (heapPush h e)
    have h3 : (heapPush h e).Perm (e :: h) := List.perm_orderedInsert tsLe e h
    show (heapPushAll l' (heapPush h e)).Perm ((e :: l') ++ h)
    exact (h2.trans (h3.append_left l')).trans List.perm_middle

lemma iterFold_sorted (cs : List Cont) :
    ∀ h : List EventObj, List.Sorted tsLe h →
      List.Sorted tsLe (iterFold cs h) := by
  induction cs with
  | nil => intro h hs; exact hs
  | cons c cs' ih =>
    intro h hs
    exact ih (heapPushAll (iterCont c) h) (heapPushAll_sorted _ h hs)

mutual
theorem iterCont_perm (c : Cont) : (iterCont c).Perm (subtreeEvents c) := by
  match c with
  | .mk evs cs f l =>
    have h1 := iterFold_perm cs (heapPushAll evs [])
    have h2 : (heapPushAll evs []).Perm evs := by
      simpa using heapPushAll_perm evs []
    show (iterFold cs (heapPushAll evs [])).Perm (evs ++ subtreeEventsList cs)
    exact h1.trans (h2.append_right _)

theorem iterFold_perm (cs : List Cont) (h : List EventObj) :
    (iterFold cs h).Perm (h ++ subtreeEventsList cs) := by
  match cs with
  | [] => simp [iterFold, subtreeEventsList]
  | c :: cs' =>
    have hrec := iterFold_perm cs' (heapPushAll (iterCont c) h)
    have hpush := heapPushAll_perm (iterCont c) h
    have hc := iterCont_perm c
    show (iterFold cs' (heapPushAll (iterCont c) h)).Perm
      (h ++ (subtreeEvents c ++ subtreeEventsList cs'))
    have step1 : (iterFold cs' (heapPushAll (iterCont c) h)).Perm
        ((subtreeEvents c ++ h) ++ subtreeEventsList cs') :=
      hrec.trans ((hpush.trans (hc.append_right h)).append_right _)
    have step2 : ((subtreeEvents c ++ h) ++ subtreeEventsList cs').Perm
        ((h ++ subtreeEvents c) ++ subtreeEventsList cs') :=
      List.perm_append_comm.append_right _
    have step3 : (h ++ subtreeEvents c) ++ subtreeEventsList cs' =
        h ++ (subtreeEvents c ++ subtreeEventsList cs') := by
      rw [List.append_assoc]
    exact (step1.trans step2).trans (step3 ▸ List.Perm.refl _)
end

mutual
theorem subtreeEvents_length (c : Cont) :
    (subtreeEvents c).length = contLen c := by
  match c with
  | .mk evs cs f l =>
    calc (subtreeEvents (.mk evs cs f l)).length
        = evs.length + (subtreeEventsList cs).length := by
          simp [subtreeEvents]
      _ = evs.length + contLenList cs := by rw [subtreeEventsList_length cs]
      _ = contLen (.mk evs cs f l) := rfl

theorem subtreeEventsList_length (cs : List Cont) :
    (subtreeEventsList cs).length = contLenList cs := by
  match cs with
  | [] => rfl
  | c :: cs' =>
    calc (subtreeEventsList (c :: cs')).length
        = (subtreeEvents c).length + (subtreeEventsList cs').length := by
          simp [subtreeEventsList]
      _ = contLen c + contLenList cs' := by
          rw [subtreeEvents_length c, subtreeEventsList_length cs']
      _ = contLenList (c :: cs') := rfl
end

/-- The concrete container of claim C3: a child holding events with
timestamps `2` and `4` appended — after events `5`, `1`, `3` — to a fresh
container. -/
def c3Child : Cont := (emptyCont.appendEvent ⟨2⟩).appendEvent ⟨4⟩

def c3Example : Cont :=
  (((emptyCont.appendEvent ⟨5⟩).appendEvent ⟨1⟩).appendEvent ⟨3⟩).appendCont c3Child

/-- Claim C3 (confirmed): iterating any container yields a sequence
sorted by non-decreasing timestamp that is a permutation of the events of
its whole subtree (direct events plus all descendants' events, each
exactly once), whose length is `__len__`; and on the concrete example —
events `5`, `1`, `3` appended directly plus `2`, `4` through a child
container — iteration yields timestamps `[1, 2, 3, 4, 5]` with
`first_timestamp = 1`, `last_timestamp = 5` and `Length() = 5`. -/
theorem c3_iteration :
    (∀ c : Cont, List.Sorted tsLe (iterCont c) ∧
      (iterCont c).Perm (subtreeEvents c) ∧ (iterCont c).length = contLen c) ∧
      (iterCont c3Example).map EventObj.timestamp = [1, 2, 3, 4, 5] ∧
      c3Example.first_timestamp = 1 ∧ c3Example.last_timestamp = 5 ∧
      contLen c3Example = 5 := by
  constructor
  · intro c
    have hperm := iterCont_perm c
    refine ⟨?_, hperm, ?_⟩
    · cases c with
      | mk evs cs f l =>
        exact iterFold_sorted cs _ (heapPushAll_sorted evs [] List.sorted_nil)
    · rw [hperm.length_eq, subtreeEvents_length]
  · refine ⟨by decide, by decide, by decide, by decide⟩

/-! # Claim C10 -/

/-- A parent that is fresh except for one child reference, the child
holding one event with timestamp `5` at the moment it is appended. -/
def c10Start : Sys := ⟨⟨[], [], 0, 0⟩, emptyCont.appendEvent ⟨5⟩⟩

def c10AfterChild : Sys := c10Start.appendChildC

def c10Final : Sys := c10AfterChild.appendEventC ⟨10⟩

/-- Claim C10 (confirmed): appending an event to an already-appended
child container runs `_Append` with `self` bound to the child, so only
the child's sequences and cached range change — the parent's `events`,
`containers` and recorded bounds are exactly as before.  Concretely,
after the child (then holding one event at timestamp `5`) is appended to
a fresh parent, appending an event at timestamp `10` to the child leaves
the parent's snapshot range at `[5, 5]` while the child's
`last_timestamp` becomes `10`: the parent's cached range is a snapshot
taken at append time and is never refreshed. -/
theorem c10_frame :
    (∀ (s : Sys) (e : EventObj),
      (s.appendEventC e).P = s.P ∧ (s.appendEventC e).C = s.C.appendEvent e) ∧
      c10Final.P = c10AfterChild.P ∧
      c10Final.P.first_timestamp = 5 ∧ c10Final.P.last_timestamp = 5 ∧
      c10Final.P.events = [] ∧ c10Final.P.containerIds = [0] ∧
      c10Final.C.last_timestamp = 10 ∧
      c10Final.P.last_timestamp < c10Final.C.last_timestamp := by
  constructor
  · intro s e
    exact ⟨rfl, rfl⟩
  · exact ⟨rfl, by decide, by decide, rfl, rfl, by decide, by decide⟩

/-! # Claim C5 -/

lemma lookupStore_absent (l : List (String × Value)) (name : String)
    (h : ∀ p ∈ l, p.1 ≠ name) : lookupStore l name = none := by
  induction l with
  | nil => rfl
  | cons kv rest ih =>
    obtain ⟨k, v⟩ := kv
    have hk : k ≠ name := h (k, v) (List.mem_cons_self _ _)
    simp only [lookupStore, hk, if_false]
    exact ih fun p hp => h p (List.mem_cons_of_mem _ hp)

lemma getValueChain_absent (name : String)
    (parents : List (List (String × Value) × Nat)) :
    ∀ own : List (String × Value),
      (∀ p ∈ own, p.1 ≠ name) →
      (∀ pc ∈ parents, ∀ p ∈ pc.1, p.1 ≠ name) →
      getValueChain own parents name = none := by
  induction parents with
  | nil =>
    intro own h1 _
    simp [getValueChain, lookupStore_absent own name h1]
  | cons pc rest ih =>
    intro own h1 h2
    obtain ⟨pst, plen⟩ := pc
    simp only [getValueChain, lookupStore_absent own name h1]
    by_cases hp : plen = 0
    · simp [hp]
    · simp only [hp, if_false]
      exact ih pst
        (fun p hp' => h2 (pst, plen) (List.mem_cons_self _ _) p hp')
        (fun pc' h' p hp' => h2 pc' (List.mem_cons_of_mem _ h') p hp')

lemma eventGetattr_absent (name : String) (attrs : List (String × Value))
    (chain : List (List (String × Value) × Nat))
    (h1 : ∀ p ∈ attrs, p.1 ≠ name)
    (h2 : ∀ pc ∈ chain, ∀ p ∈ pc.1, p.1 ≠ name) :
    eventGetattr attrs chain name = none := by
  cases chain with
  | nil => simp [eventGetattr, lookupStore_absent attrs name h1]
  | cons pc rest =>
    obtain ⟨pst, plen⟩ := pc
    simp only [eventGetattr, lookupStore_absent attrs name h1]
    by_cases hp : plen = 0
    · simp [hp]
    · simp only [hp, if_false]
      exact getValueChain_absent name rest pst
        (fun p hp' => h2 (pst, plen) (List.mem_cons_self _ _) p hp')
        (fun pc' h' p hp' => h2 pc' (List.mem_cons_of_mem _ h') p hp')

/-- Claim C5 (confirmed): `Append` with an item that is neither an
`EventObject` nor an `EventContainer`, or with an event whose resolution
chain nowhere defines `timestamp`, raises
`errors.NotAnEventContainerOrObject` and leaves the container — events,
child containers, `first_timestamp`, `last_timestamp` — exactly as it
was; `item.parent_container = self` is never executed. -/
theorem c5_invalid_append (c : Cont) (it : Item)
    (h : it = Item.other ∨
      ∃ attrs chain, it = Item.event attrs chain ∧
        (∀ p ∈ attrs, p.1 ≠ "timestamp") ∧
        ∀ pc ∈ chain, ∀ p ∈ pc.1, p.1 ≠ "timestamp") :
    AppendRun c it = (c, false, some AppendErr.notAnEventContainerOrObject) := by
  rcases h with rfl | ⟨attrs, chain, rfl, h1, h2⟩
  · rfl
  · simp [AppendRun, eventGetattr_absent "timestamp" attrs chain h1 h2]

/-- Witness for `c5_invalid_append`: an event carrying only a `note`
attribute, with one nonempty ancestor store that also lacks
`timestamp`. -/
theorem c5_invalid_append_witness :
    AppendRun emptyCont
        (Item.event [("note", Value.str "x")] [([("host", Value.str "h")], 1)]) =
      (emptyCont, false, some AppendErr.notAnEventContainerOrObject) := by
  apply c5_invalid_append
  right
  refine ⟨_, _, rfl, ?_, ?_⟩
  · intro p hp
    rcases List.mem_singleton.mp hp with rfl
    decide
  · intro pc hpc p hp
    rcases List.mem_singleton.mp hpc with rfl
    rcases List.mem_singleton.mp hp with rfl
    decide

/-! # Claim C6 -/

/-- Claim C6 (code bug), evaluated at the failing input.  Build a root
container that is empty of events but carries the attribute `host`, and
a child container appended to it (the root's `__len__` is then `0`).
`GetValue("host")` on the child finds nothing locally and then skips the
parent entirely: `if self.parent_container:` asks for the parent's
truthiness, which for an `EventContainer` goes through `__len__`, so an
empty ancestor cuts the delegation and an `AttributeError` is raised even
though the attribute is defined on the chain — contrary both to the
claim and to the method's own docstring. -/
theorem c6_empty_parent_eval :
    lookupStore [("host", Value.str "h")] "host" = some (Value.str "h") ∧
      getValueChain [] [([("host", Value.str "h")], 0)] "host" = none := by
  exact ⟨rfl, rfl⟩

/-! # Claim C4 -/

/-- The event of the round-trip test: `{timestamp: 1000, source_short:
"LOG", pathspec: the two bytes 0x01 0x02, note: "hello", empty: ""}`. -/
def c4Store : List (String × Value) :=
  [("timestamp", Value.int 1000), ("source_short", Value.str "LOG"),
   ("pathspec", Value.str "\x01\x02"), ("note", Value.str "hello"),
   ("empty", Value.str "")]

/-- Claim C4 (confirmed): decoding the encoding of the test event
reproduces `timestamp`, `source_short`, `pathspec` and `note` exactly,
and the empty-string attribute `empty` is absent from the result; and in
general the dynamic-attribute emission filter of `ToProto` accepts a
value exactly when it is a boolean, an integer, or truthy — so empty
strings are dropped while `0` and `False` are kept. -/
theorem c4_roundtrip :
    (∃ p, toProto c4Store = Except.ok p ∧
      (fromProtoMsg [] (PMsg.eventMsg p)).2 = none ∧
      lookupStore (fromProtoMsg [] (PMsg.eventMsg p)).1 "timestamp" =
        some (Value.int 1000) ∧
      lookupStore (fromProtoMsg [] (PMsg.eventMsg p)).1 "source_short" =
        some (Value.str "LOG") ∧
      lookupStore (fromProtoMsg [] (PMsg.eventMsg p)).1 "pathspec" =
        some (Value.str "\x01\x02") ∧
      lookupStore (fromProtoMsg [] (PMsg.eventMsg p)).1 "note" =
        some (Value.str "hello") ∧
      lookupStore (fromProtoMsg [] (PMsg.eventMsg p)).1 "empty" = none) ∧
      (∀ v : Value, emitsDynamic v = true ↔
        ((∃ b, v = Value.bool b) ∨ (∃ i, v = Value.int i) ∨
          py2Truthy v = true)) ∧
      emitsDynamic (Value.str "") = false ∧
      emitsDynamic (Value.int 0) = true ∧
      emitsDynamic (Value.bool false) = true := by
  refine ⟨⟨_, rfl, rfl, rfl, rfl, rfl, rfl, rfl⟩, ?_, rfl, rfl, rfl⟩
  intro v
  cases v <;> simp [emitsDynamic, isinstBoolIntLong, py2Truthy]

/-! # Claim C7 -/

/-- Claim C7 (code bug), evaluated at the failing input.  Encoding an
event whose `source_short` names a source absent from the enum table does
not fall back to the reserved default code 6: the lookup
`self._SOURCE_SHORT_TO_PROTO_MAP[self.source_short]` is a plain dict
index and raises an uncaught `KeyError` — the `setdefault('LOG')` /
`setdefault(6)` calls only ensure those keys exist and install no lookup
default.  (The known name "LOG" does map to code 6.) -/
theorem c7_unknown_source_eval :
    toProto [("source_short", Value.str "NOSUCHSOURCE")] =
        Except.error CodecErr.keyError ∧
      sourceShortToProtoMap "NOSUCHSOURCE" = none ∧
      sourceShortToProtoMap "LOG" = some 6 := by
  exact ⟨rfl, rfl, rfl⟩

/-! # Claim C8 -/

/-- A wire message with the `timestamp` field set and one dynamic
attribute whose TaggedValue has no recognized discriminant (no value
field set). -/
def c8Msg : PEvent := ⟨some 7, none, none, none, none, [.mk false "" none]⟩

/-- Claim C8, counterexample.  Decoding `c8Msg` into a fresh event fails
with the unsupported-TaggedValue error, yet the event's attribute store
is no longer empty: the `ListFields()` loop had already stored the
`timestamp` fixed field before the dynamic attributes were decoded, so a
failed decode can leave a partially populated event. -/
theorem c8_counterexample :
    (fromProtoMsg [] (PMsg.eventMsg c8Msg)).2.isSome = true ∧
      (fromProtoMsg [] (PMsg.eventMsg c8Msg)).1 ≠ [] := by
  constructor
  · rfl
  · simp [fromProtoMsg, c8Msg, attrsFromProtoPairs, attributeFromProto, setItemV]

/-- Claim C8 (amended): a decode that fails because the message is not an
`EventObject` protobuf changes nothing — the type check precedes every
mutation; but a decode that fails on an unsupported TaggedValue
discriminant among the dynamic attributes can leave the already-decoded
fixed fields behind, as the concrete run shows (`timestamp` stays
stored).  Decoding is atomic only up to the fixed-field phase. -/
theorem c8_amended :
    (∀ store, fromProtoMsg store PMsg.otherMsg =
      (store, some CodecErr.unsupportedMessageType)) ∧
      fromProtoMsg [] (PMsg.eventMsg c8Msg) =
        ([("timestamp", Value.int 7)], some CodecErr.unsupportedAttributeType) := by
  exact ⟨fun _ => rfl, rfl⟩

/-! # Claim C9 -/

/-- Claim C9, counterexample.  Encoding an event with a float-valued
dynamic attribute does fail, but not with the explicit
unsupported-attribute error the claim names: the float passes the
emission filter (a nonzero float is truthy), falls through every
`isinstance` branch of `_AttributeToProto` into the catch-all
`proto.data = value`, and the opaque-bytes wire field rejects it with a
`TypeError` from the protobuf layer.  The only
`"Unsupported proto attribute type."` error in the source is raised while
decoding, never while encoding. -/
theorem c9_counterexample :
    toProto [("x", Value.float)] = Except.error CodecErr.wireTypeError ∧
      CodecErr.wireTypeError ≠ CodecErr.unsupportedAttributeType := by
  exact ⟨rfl, by decide⟩

lemma encodeStep_float_error (p : PEvent) (n : String) :
    ∃ e, encodeStep p n Value.float = Except.error e := by
  unfold encodeStep setFixed
  split_ifs
  any_goals exact ⟨_, rfl⟩
  all_goals simp [emitsDynamic, py2Truthy, isinstBoolIntLong] at *

lemma toProtoLoop_float_error (store : List (String × Value)) :
    ∀ p : PEvent, (∃ n, (n, Value.float) ∈ store) →
      ∃ e, toProtoLoop p store = Except.error e := by
  induction store with
  | nil =>
    intro p h
    rcases h with ⟨n, hn⟩
    cases hn
  | cons kv rest ih =>
    intro p h
    obtain ⟨k, v⟩ := kv
    rcases h with ⟨n, hn⟩
    rcases List.mem_cons.mp hn with heq | hmem
    · have hv : v = Value.float := (Prod.ext_iff.mp heq.symm).2
      subst hv
      obtain ⟨e, he⟩ := encodeStep_float_error p k
      exact ⟨e, by simp [toProtoLoop, he]⟩
    · cases hstep : encodeStep p k v with
      | error e => exact ⟨e, by simp [toProtoLoop, hstep]⟩
      | ok p' =>
        obtain ⟨e, he⟩ := ih p' ⟨n, hmem⟩
        exact ⟨e, by simp [toProtoLoop, hstep, he]⟩

/-- Claim C9 (amended): encoding any event that carries a float-valued
attribute fails — under whatever name the float travels, every branch of
the `ToProto` loop rejects it — rather than silently coercing or
truncating; but the failure is the wire layer's type error from the
`proto.data = value` catch-all (or a `KeyError`/`TypeError` from the
special-cased fields), not a dedicated `UnsupportedAttributeType`
error. -/
theorem c9_amended (store : List (String × Value)) (n : String)
    (h : (n, Value.float) ∈ store) :
    ∃ e, toProto store = Except.error e :=
  toProtoLoop_float_error store emptyPEvent ⟨n, h⟩

/-- Witness for `c9_amended` at the singleton store `{x: float}`. -/
theorem c9_amended_witness :
    ("x", Value.float) ∈ [("x", Value.float)] ∧
      ∃ e, toProto [("x", Value.float)] = Except.error e := by
  have h : ("x", Value.float) ∈ [("x", Value.float)] :=
    List.mem_singleton.mpr rfl
  exact ⟨h, c9_amended _ "x" h⟩

end Plaso
